import Mathlib

/-!
Verification of the structured-output coercion core of the
`chatgpt-uapi-client` repository (`src/gptuapi/validator.py` and
`src/gptuapi/api_client.py`).

Python strings are embedded as `List Char`.  The external `json` module
(`json.loads` / `json.dumps`) is modelled by an executable recursive-descent
parser and serializer over an inductive `Json` type; numbers are modelled as
arbitrary-precision integers (Python `int`) — floating-point literals are out
of scope.  The external `jsonschema` library is modelled on the fragment the
repository and its documentation exercise: the `type`, `required` and
`properties` keywords of Draft 7, with `absolute_path` tracking.
-/

namespace Gptuapi

/-- Python strings are modelled as lists of characters. -/
abbrev Str := List Char

/-- Model of a parsed JSON value (Python objects produced by `json.loads`).
Numbers are modelled as Python integers. -/
inductive Json where
  | null : Json
  | bool (b : Bool) : Json
  | num (n : Int) : Json
  | str (s : Str) : Json
  | arr (elems : List Json) : Json
  | obj (members : List (Str × Json)) : Json

/-! ## Decimal digits (model of Python `int` printing and parsing) -/

/-- `True` for the ASCII decimal digits `0`-`9`. -/
def isDigit10 (c : Char) : Bool := 48 ≤ c.toNat && c.toNat ≤ 57

/-- The ASCII digit character for `n < 10`. -/
def digitChar10 (n : Nat) : Char := Char.ofNat (48 + n)

/-- Decimal representation of a natural number (model of Python `str(int)`
for non-negative arguments). -/
def natToStr (n : Nat) : Str :=
  if n < 10 then [digitChar10 n]
  else natToStr (n / 10) ++ [digitChar10 (n % 10)]
decreasing_by exact Nat.div_lt_self (by omega) (by omega)

/-- Accumulate the numeric value of a digit run (the body of the greedy
digit loop of a decimal scanner). -/
def digitsVal : Str → Nat → Nat
  | [], acc => acc
  | c :: rest, acc => digitsVal rest (acc * 10 + (c.toNat - 48))

/-- Greedy digit scan: consume the longest digit run, returning its value
and the remaining input. -/
def digitsLoop : Str → Nat → Nat × Str
  | [], acc => (acc, [])
  | c :: rest, acc =>
    if isDigit10 c then digitsLoop rest (acc * 10 + (c.toNat - 48))
    else (acc, c :: rest)

/-! ## Model of `json.dumps` (compact form, default separators) -/

/-- Lower-case hexadecimal digit character for `n < 16`. -/
def hexDigitChar (n : Nat) : Char :=
  if n < 10 then Char.ofNat (48 + n) else Char.ofNat (87 + n)

/-- Four-digit hexadecimal rendering used by `\uXXXX` escapes. -/
def hex4 (n : Nat) : Str :=
  [hexDigitChar (n / 4096 % 16), hexDigitChar (n / 256 % 16),
   hexDigitChar (n / 16 % 16), hexDigitChar (n % 16)]

/-- JSON string escaping of one character (model of the `json.dumps` string
encoder: `"` and `\` and the named control escapes, other control characters
as `\u00XX`; non-ASCII characters are emitted verbatim). -/
def escapeChar (c : Char) : Str :=
  if c = '"' then ['\\', '"']
  else if c = '\\' then ['\\', '\\']
  else if c = '\n' then ['\\', 'n']
  else if c = '\t' then ['\\', 't']
  else if c = '\r' then ['\\', 'r']
  else if c.toNat = 8 then ['\\', 'b']
  else if c.toNat = 12 then ['\\', 'f']
  else if c.toNat < 32 then '\\' :: 'u' :: hex4 c.toNat
  else [c]

/-- JSON string escaping of a whole string body. -/
def escapeStr (s : Str) : Str := s.flatMap escapeChar

/-- Decimal rendering of a Python integer. -/
def intToStr (n : Int) : Str :=
  if n < 0 then '-' :: natToStr n.natAbs else natToStr n.natAbs

mutual

/-- Model of `json.dumps` with the default separators `", "` and `": "`. -/
def dumpsVal : Json → Str
  | .num n => intToStr n
  | .str s => '"' :: (escapeStr s ++ ['"'])
  | .bool false => ['f', 'a', 'l', 's', 'e']
  | .bool true => ['t', 'r', 'u', 'e']
  | .null => ['n', 'u', 'l', 'l']
  | .arr [] => ['[', ']']
  | .arr (v :: vs) => '[' :: (dumpsVal v ++ (dumpsTail vs ++ [']']))
  | .obj [] => ['\x7b', '\x7d']
  | .obj (m :: ms) =>
    '\x7b' :: (dumpsMember m ++ (dumpsMTail ms ++ ['\x7d']))

/-- Remaining array elements, each preceded by the `", "` separator. -/
def dumpsTail : List Json → Str
  | [] => []
  | v :: vs => ',' :: ' ' :: (dumpsVal v ++ dumpsTail vs)

/-- One object member `"key": value`. -/
def dumpsMember : Str × Json → Str
  | (k, v) => '"' :: (escapeStr k ++ ('"' :: ':' :: ' ' :: dumpsVal v))

/-- Remaining object members, each preceded by the `", "` separator. -/
def dumpsMTail : List (Str × Json) → Str
  | [] => []
  | m :: ms => ',' :: ' ' :: (dumpsMember m ++ dumpsMTail ms)

end

/-! ## Model of `json.loads` (strict RFC 8259 scanner over integers) -/

/-- JSON insignificant whitespace (`json.loads` skips exactly these). -/
def jsonWs (c : Char) : Bool := c = ' ' || c = '\t' || c = '\n' || c = '\r'

/-- Skip insignificant whitespace. -/
def skipWs (s : Str) : Str := s.dropWhile jsonWs

/-- Match an exact literal continuation, returning the rest of the input. -/
def expectStr : Str → Str → Option Str
  | [], s => some s
  | _ :: _, [] => none
  | c :: cs, d :: ds => if c = d then expectStr cs ds else none

/-- Parse one hexadecimal digit (both letter cases, as `json.loads`). -/
def parseHexDigit (c : Char) : Option Nat :=
  if 48 ≤ c.toNat ∧ c.toNat ≤ 57 then some (c.toNat - 48)
  else if 97 ≤ c.toNat ∧ c.toNat ≤ 102 then some (c.toNat - 87)
  else if 65 ≤ c.toNat ∧ c.toNat ≤ 70 then some (c.toNat - 55)
  else none

/-- Parse a JSON string body after the opening quote (strict mode: raw
control characters are rejected, exactly the escapes of RFC 8259 are
understood). -/
def parseStringBody : Str → Option (Str × Str)
  | [] => none
  | c :: rest =>
    if c = '"' then some ([], rest)
    else if c = '\\' then
      match rest with
      | [] => none
      | e :: rest2 =>
        if e = 'u' then
          match rest2 with
          | a :: b :: c2 :: d :: rest3 =>
            match parseHexDigit a, parseHexDigit b, parseHexDigit c2, parseHexDigit d with
            | some ha, some hb, some hc, some hd =>
              (parseStringBody rest3).map
                (fun p => (Char.ofNat (ha * 4096 + hb * 256 + hc * 16 + hd) :: p.1, p.2))
            | _, _, _, _ => none
          | _ => none
        else
          match unescape e with
          | some u => (parseStringBody rest2).map (fun p => (u :: p.1, p.2))
          | none => none
    else if c.toNat < 32 then none
    else (parseStringBody rest).map (fun p => (c :: p.1, p.2))
where
  /-- The single-character escapes of RFC 8259. -/
  unescape : Char → Option Char
  | 'n' => some '\n'
  | 't' => some '\t'
  | 'r' => some '\r'
  | 'b' => some (Char.ofNat 8)
  | 'f' => some (Char.ofNat 12)
  | '/' => some '/'
  | '\\' => some '\\'
  | '"' => some '"'
  | _ => none

/-- Parse the digits of a JSON integer given its first digit (strict
grammar: a leading `0` is the whole integer part). -/
def parseNumFrom (c : Char) (r : Str) : Nat × Str :=
  if c = '0' then (0, r) else digitsLoop r (c.toNat - 48)

mutual

/-- Model of the `json.loads` value scanner, fuelled (the fuel strictly
decreases on every nested call; `jsonLoads` supplies enough for any input). -/
def parseValue : Nat → Str → Option (Json × Str)
  | 0, _ => none
  | Nat.succ fuel, s =>
    match skipWs s with
    | [] => none
    | c :: r =>
      if isDigit10 c then
        let p := parseNumFrom c r
        some (.num (Int.ofNat p.1), p.2)
      else if c = '-' then
        match r with
        | [] => none
        | d :: r2 =>
          if isDigit10 d then
            let p := parseNumFrom d r2
            some (.num (-(Int.ofNat p.1)), p.2)
          else none
      else if c = '"' then
        (parseStringBody r).map (fun p => (.str p.1, p.2))
      else if c = 'n' then
        (expectStr ['u', 'l', 'l'] r).map (fun r2 => (.null, r2))
      else if c = 't' then
        (expectStr ['r', 'u', 'e'] r).map (fun r2 => (.bool true, r2))
      else if c = 'f' then
        (expectStr ['a', 'l', 's', 'e'] r).map (fun r2 => (.bool false, r2))
      else if c = '[' then
        match skipWs r with
        | ']' :: r2 => some (.arr [], r2)
        | _ =>
          match parseValue fuel r with
          | none => none
          | some (v, r1) =>
            (parseElems fuel r1).map (fun p => (.arr (v :: p.1), p.2))
      else if c = '\x7b' then
        match skipWs r with
        | '\x7d' :: r2 => some (.obj [], r2)
        | _ =>
          match parseMember fuel r with
          | none => none
          | some (m, r1) =>
            (parseMembers fuel r1).map (fun p => (.obj (m :: p.1), p.2))
      else none

/-- After one array element: `,` and a further element, or the closing `]`. -/
def parseElems : Nat → Str → Option (List Json × Str)
  | 0, _ => none
  | Nat.succ fuel, s =>
    match skipWs s with
    | ',' :: r =>
      match parseValue fuel r with
      | none => none
      | some (v, r1) => (parseElems fuel r1).map (fun p => (v :: p.1, p.2))
    | ']' :: r => some ([], r)
    | _ => none

/-- One object member: a string key, `:`, and a value. -/
def parseMember : Nat → Str → Option ((Str × Json) × Str)
  | 0, _ => none
  | Nat.succ fuel, s =>
    match skipWs s with
    | '"' :: r =>
      match parseStringBody r with
      | none => none
      | some (k, r1) =>
        match skipWs r1 with
        | ':' :: r2 => (parseValue fuel r2).map (fun p => ((k, p.1), p.2))
        | _ => none
    | _ => none

/-- After one object member: `,` and a further member, or the closing brace. -/
def parseMembers : Nat → Str → Option (List (Str × Json) × Str)
  | 0, _ => none
  | Nat.succ fuel, s =>
    match skipWs s with
    | ',' :: r =>
      match parseMember fuel r with
      | none => none
      | some (m, r1) => (parseMembers fuel r1).map (fun p => (m :: p.1, p.2))
    | '\x7d' :: r => some ([], r)
    | _ => none

end

/-- Model of `json.loads`: parse one value and require only whitespace to
remain (otherwise Python raises `JSONDecodeError`, modelled as `none`). -/
def jsonLoads (s : Str) : Option Json :=
  match parseValue (s.length + 1) s with
  | some (v, rest) => if skipWs rest = [] then some v else none
  | none => none

/-! ## Round-trip lemmas: decimal digits -/

/-- The input does not continue with a decimal digit (so a greedy digit
scan stops exactly here). -/
def noDigitHead : Str → Bool
  | [] => true
  | c :: _ => !(isDigit10 c)

theorem digitChar10_toNat {n : Nat} (h : n < 10) : (digitChar10 n).toNat = 48 + n := by
  interval_cases n <;> decide

theorem isDigit10_digitChar10 {n : Nat} (h : n < 10) : isDigit10 (digitChar10 n) = true := by
  simp only [isDigit10, digitChar10_toNat h, Bool.and_eq_true, decide_eq_true_eq]
  omega

theorem natToStr_all_digits (n : Nat) : ∀ c ∈ natToStr n, isDigit10 c = true := by
  induction n using Nat.strong_induction_on with
  | _ n ih =>
    rw [natToStr]
    split
    · intro c hc
      simp only [List.mem_singleton] at hc
      subst hc
      exact isDigit10_digitChar10 (by omega)
    · intro c hc
      rcases List.mem_append.mp hc with h1 | h2
      · exact ih (n / 10) (Nat.div_lt_self (by omega) (by omega)) c h1
      · simp only [List.mem_singleton] at h2
        subst h2
        exact isDigit10_digitChar10 (Nat.mod_lt _ (by omega))

theorem natToStr_ne_nil (n : Nat) : natToStr n ≠ [] := by
  rw [natToStr]
  split
  · simp
  · simp

theorem isDigit10_not_ws {c : Char} (h : isDigit10 c = true) : jsonWs c = false := by
  simp only [isDigit10, Bool.and_eq_true, decide_eq_true_eq] at h
  have h1 : c ≠ ' ' := by rintro rfl; exact absurd h (by decide)
  have h2 : c ≠ '\t' := by rintro rfl; exact absurd h (by decide)
  have h3 : c ≠ '\n' := by rintro rfl; exact absurd h (by decide)
  have h4 : c ≠ '\r' := by rintro rfl; exact absurd h (by decide)
  simp [jsonWs, h1, h2, h3, h4]

theorem natToStr_head_ne_zero (n : Nat) (hn : 1 ≤ n) :
    ∀ d ds, natToStr n = d :: ds → d ≠ '0' := by
  induction n using Nat.strong_induction_on with
  | _ n ih =>
    rw [natToStr]
    split
    · intro d ds hd
      simp only [List.cons.injEq] at hd
      intro hz
      rw [hz] at hd
      have h48 := digitChar10_toNat (show n < 10 by omega)
      rw [hd.1] at h48
      rw [show ('0').toNat = 48 from rfl] at h48
      omega
    · intro d ds hd
      rcases he : natToStr (n / 10) with _ | ⟨d', ds'⟩
      · exact absurd he (natToStr_ne_nil _)
      · rw [he, List.cons_append] at hd
        simp only [List.cons.injEq] at hd
        obtain ⟨rfl, -⟩ := hd
        exact ih (n / 10) (Nat.div_lt_self (by omega) (by omega))
          (Nat.one_le_div_iff (by omega) |>.mpr (by omega)) d' ds' he

theorem digitsVal_append (xs : Str) (c : Char) :
    ∀ a, digitsVal (xs ++ [c]) a = (digitsVal xs a) * 10 + (c.toNat - 48) := by
  induction xs with
  | nil => intro a; simp [digitsVal]
  | cons x xs ih => intro a; simp [digitsVal, ih]

theorem natToStr_val (n : Nat) : digitsVal (natToStr n) 0 = n := by
  induction n using Nat.strong_induction_on with
  | _ n ih =>
    rw [natToStr]
    split
    · next h =>
      simp [digitsVal, digitChar10_toNat h]
    · next h =>
      rw [digitsVal_append, ih (n / 10) (Nat.div_lt_self (by omega) (by omega)),
        digitChar10_toNat (Nat.mod_lt _ (by omega))]
      omega

theorem digitsLoop_stop (rest : Str) (acc : Nat) (h : noDigitHead rest = true) :
    digitsLoop rest acc = (acc, rest) := by
  cases rest with
  | nil => rfl
  | cons c r =>
    simp only [noDigitHead, Bool.not_eq_true'] at h
    simp [digitsLoop, h]

theorem digitsLoop_run (ds : Str) (hds : ∀ c ∈ ds, isDigit10 c = true) :
    ∀ rest acc, noDigitHead rest = true →
      digitsLoop (ds ++ rest) acc = (digitsVal ds acc, rest) := by
  induction ds with
  | nil => intro rest acc h; simp [digitsVal, digitsLoop_stop rest acc h]
  | cons d ds ih =>
    intro rest acc h
    have hd : isDigit10 d = true := hds d (List.mem_cons_self d ds)
    simp only [List.cons_append, digitsLoop, hd, if_true, digitsVal]
    exact ih (fun c hc => hds c (List.mem_cons_of_mem _ hc)) rest _ h

/-- Parsing the decimal rendering of `m` recovers `m` and stops exactly at
the end of the digit run. -/
theorem parseNum_natToStr (m : Nat) (rest : Str) (h : noDigitHead rest = true) :
    ∃ d ds, natToStr m = d :: ds ∧ isDigit10 d = true ∧
      parseNumFrom d (ds ++ rest) = (m, rest) := by
  rcases he : natToStr m with _ | ⟨d, ds⟩
  · exact absurd he (natToStr_ne_nil _)
  · have hd : isDigit10 d = true := natToStr_all_digits m d (he ▸ List.mem_cons_self d ds)
    refine ⟨d, ds, rfl, hd, ?_⟩
    by_cases hm : m = 0
    · subst hm
      have : d = '0' ∧ ds = [] := by
        rw [natToStr] at he
        simp only [show (0 : Nat) < 10 by omega, if_true, digitChar10] at he
        exact ⟨(List.cons.injEq _ _ _ _ ▸ he).1.symm, (List.cons.injEq _ _ _ _ ▸ he).2.symm⟩
      rcases this with ⟨h1, h2⟩
      subst h1; subst h2
      simp [parseNumFrom, digitsLoop_stop rest 0 h]
    · have hdz : d ≠ '0' := natToStr_head_ne_zero m (by omega) d ds he
      have hall : ∀ c ∈ ds, isDigit10 c = true := fun c hc =>
        natToStr_all_digits m c (he ▸ List.mem_cons_of_mem _ hc)
      simp only [parseNumFrom, hdz, if_false, digitsLoop_run ds hall rest _ h]
      have : digitsVal (d :: ds) 0 = m := he ▸ natToStr_val m
      simp only [digitsVal] at this
      simpa using this

/-! ## Round-trip lemmas: strings -/

theorem hexDigitChar_parse {n : Nat} (h : n < 16) : parseHexDigit (hexDigitChar n) = some n := by
  interval_cases n <;> decide

theorem parseStringBody_escape (s : Str) (rest : Str) :
    parseStringBody (escapeStr s ++ ('"' :: rest)) = some (s, rest) := by
  induction s with
  | nil =>
    rw [parseStringBody.eq_def]
    simp [escapeStr]
  | cons c s ih =>
    have hesc : escapeStr (c :: s) = escapeChar c ++ escapeStr s := by simp [escapeStr]
    rw [hesc, List.append_assoc]
    by_cases h1 : c = '"'
    · subst h1
      rw [show escapeChar '"' = ['\\', '"'] from rfl, List.cons_append, List.cons_append,
        List.nil_append, parseStringBody.eq_def]
      simp [parseStringBody.unescape, ih]
    by_cases h2 : c = '\\'
    · subst h2
      rw [show escapeChar '\\' = ['\\', '\\'] from rfl, List.cons_append, List.cons_append,
        List.nil_append, parseStringBody.eq_def]
      simp [parseStringBody.unescape, ih]
    by_cases h3 : c = '\n'
    · subst h3
      rw [show escapeChar '\n' = ['\\', 'n'] from rfl, List.cons_append, List.cons_append,
        List.nil_append, parseStringBody.eq_def]
      simp [parseStringBody.unescape, ih]
    by_cases h4 : c = '\t'
    · subst h4
      rw [show escapeChar '\t' = ['\\', 't'] from rfl, List.cons_append, List.cons_append,
        List.nil_append, parseStringBody.eq_def]
      simp [parseStringBody.unescape, ih]
    by_cases h5 : c = '\r'
    · subst h5
      rw [show escapeChar '\r' = ['\\', 'r'] from rfl, List.cons_append, List.cons_append,
        List.nil_append, parseStringBody.eq_def]
      simp [parseStringBody.unescape, ih]
    by_cases h6 : c.toNat = 8
    · rw [show escapeChar c = ['\\', 'b'] by simp [escapeChar, h1, h2, h3, h4, h5, h6],
        List.cons_append, List.cons_append, List.nil_append, parseStringBody.eq_def]
      simp [parseStringBody.unescape, ih]
      rw [← h6, Char.ofNat_toNat]
    by_cases h7 : c.toNat = 12
    · rw [show escapeChar c = ['\\', 'f'] by simp [escapeChar, h1, h2, h3, h4, h5, h6, h7],
        List.cons_append, List.cons_append, List.nil_append, parseStringBody.eq_def]
      simp [parseStringBody.unescape, ih]
      rw [← h7, Char.ofNat_toNat]
    by_cases h8 : c.toNat < 32
    · rw [show escapeChar c = '\\' :: 'u' :: hex4 c.toNat by
        simp [escapeChar, h1, h2, h3, h4, h5, h6, h7, h8]]
      simp only [hex4, List.cons_append, List.nil_append]
      rw [parseStringBody.eq_def]
      simp only [if_neg (by decide : ¬('\\' = '"')), if_pos (rfl : '\\' = '\\'),
        if_pos (rfl : 'u' = 'u'),
        hexDigitChar_parse (Nat.mod_lt (c.toNat / 4096) (by omega)),
        hexDigitChar_parse (Nat.mod_lt (c.toNat / 256) (by omega)),
        hexDigitChar_parse (Nat.mod_lt (c.toNat / 16) (by omega)),
        hexDigitChar_parse (Nat.mod_lt c.toNat (by omega))]
      have hv : c.toNat / 4096 % 16 * 4096 + c.toNat / 256 % 16 * 256 +
          c.toNat / 16 % 16 * 16 + c.toNat % 16 = c.toNat := by omega
      simp [hv, Char.ofNat_toNat, ih]
    · have h8' : ¬c.toNat < 32 := h8
      rw [show escapeChar c = [c] by simp [escapeChar, h1, h2, h3, h4, h5, h6, h7, h8],
        List.cons_append, List.nil_append, parseStringBody.eq_def]
      simp [h1, h2, h8', ih]

/-! ## Round-trip: the serialized form parses back -/

theorem skipWs_not_ws {c : Char} (h : jsonWs c = false) (s : Str) : skipWs (c :: s) = c :: s := by
  simp [skipWs, List.dropWhile, h]

theorem expectStr_append (lit : Str) (rest : Str) : expectStr lit (lit ++ rest) = some rest := by
  induction lit with
  | nil => rfl
  | cons c cs ih => simp [expectStr, ih]

theorem parseValue_ws (fuel : Nat) (s : Str) :
    parseValue fuel (' ' :: s) = parseValue fuel s := by
  cases fuel <;> rfl

theorem parseMember_ws (fuel : Nat) (s : Str) :
    parseMember fuel (' ' :: s) = parseMember fuel s := by
  cases fuel <;> rfl

/-- The first character of a serialized value: never whitespace and never a
closing bracket. -/
theorem dumpsVal_head (v : Json) :
    ∃ c cs, dumpsVal v = c :: cs ∧ jsonWs c = false ∧ c ≠ ']' ∧ c ≠ '\x7d' := by
  cases v with
  | null => exact ⟨'n', ['u', 'l', 'l'], by simp [dumpsVal], by decide, by decide, by decide⟩
  | bool b =>
    cases b with
    | false => exact ⟨'f', ['a', 'l', 's', 'e'], by simp [dumpsVal], by decide, by decide, by decide⟩
    | true => exact ⟨'t', ['r', 'u', 'e'], by simp [dumpsVal], by decide, by decide, by decide⟩
  | num n =>
    by_cases hn : n < 0
    · refine ⟨'-', natToStr n.natAbs, ?_, by decide, by decide, by decide⟩
      simp [dumpsVal, intToStr, hn]
    · rcases he : natToStr n.natAbs with _ | ⟨d, ds⟩
      · exact absurd he (natToStr_ne_nil _)
      · have hd : isDigit10 d = true :=
          natToStr_all_digits n.natAbs d (he ▸ List.mem_cons_self d ds)
        refine ⟨d, ds, ?_, isDigit10_not_ws hd, ?_, ?_⟩
        · simp [dumpsVal, intToStr, hn, he]
        · rintro rfl; exact absurd hd (by decide)
        · rintro rfl; exact absurd hd (by decide)
  | str s => exact ⟨'"', escapeStr s ++ ['"'], by simp [dumpsVal], by decide, by decide, by decide⟩
  | arr es =>
    cases es with
    | nil => exact ⟨'[', [']'], by simp [dumpsVal], by decide, by decide, by decide⟩
    | cons v vs =>
      exact ⟨'[', dumpsVal v ++ (dumpsTail vs ++ [']']), by simp [dumpsVal], by decide,
        by decide, by decide⟩
  | obj ms =>
    cases ms with
    | nil => exact ⟨'\x7b', ['\x7d'], by simp [dumpsVal], by decide, by decide, by decide⟩
    | cons m ms =>
      exact ⟨'\x7b', dumpsMember m ++ (dumpsMTail ms ++ ['\x7d']), by simp [dumpsVal], by decide,
        by decide, by decide⟩

theorem noDigitHead_dumpsTail (vs : List Json) (rest : Str) :
    noDigitHead (dumpsTail vs ++ (']' :: rest)) = true := by
  cases vs with
  | nil =>
    rw [show dumpsTail [] = [] by simp [dumpsTail], List.nil_append]
    rfl
  | cons v vs =>
    rw [show dumpsTail (v :: vs) = ',' :: ' ' :: (dumpsVal v ++ dumpsTail vs) by
      simp [dumpsTail], List.cons_append]
    rfl

theorem noDigitHead_dumpsMTail (ms : List (Str × Json)) (rest : Str) :
    noDigitHead (dumpsMTail ms ++ ('\x7d' :: rest)) = true := by
  cases ms with
  | nil =>
    rw [show dumpsMTail [] = [] by simp [dumpsMTail], List.nil_append]
    rfl
  | cons m ms =>
    rw [show dumpsMTail (m :: ms) = ',' :: ' ' :: (dumpsMember m ++ dumpsMTail ms) by
      simp [dumpsMTail], List.cons_append]
    rfl

/-! Definitional one-step dispatch lemmas for the scanner, one per kind of
leading character of a serialized value. -/

theorem parseValue_null (fuel : Nat) (rest : Str) :
    parseValue (Nat.succ fuel) (['n', 'u', 'l', 'l'] ++ rest) = some (.null, rest) := rfl

theorem parseValue_true (fuel : Nat) (rest : Str) :
    parseValue (Nat.succ fuel) (['t', 'r', 'u', 'e'] ++ rest) = some (.bool true, rest) := rfl

theorem parseValue_false (fuel : Nat) (rest : Str) :
    parseValue (Nat.succ fuel) (['f', 'a', 'l', 's', 'e'] ++ rest) = some (.bool false, rest) := rfl

theorem parseValue_arr_nil (fuel : Nat) (rest : Str) :
    parseValue (Nat.succ fuel) (['[', ']'] ++ rest) = some (.arr [], rest) := rfl

theorem parseValue_obj_nil (fuel : Nat) (rest : Str) :
    parseValue (Nat.succ fuel) (['\x7b', '\x7d'] ++ rest) = some (.obj [], rest) := rfl

theorem parseValue_quote (fuel : Nat) (x : Str) :
    parseValue (Nat.succ fuel) ('"' :: x) =
      (parseStringBody x).map (fun p => (Json.str p.1, p.2)) := rfl

theorem parseValue_minus (fuel : Nat) (d : Char) (y : Str) :
    parseValue (Nat.succ fuel) ('-' :: d :: y) =
      (if isDigit10 d = true then
        some (Json.num (-(Int.ofNat (parseNumFrom d y).1)), (parseNumFrom d y).2)
      else none) := rfl

theorem parseValue_lbracket (fuel : Nat) (x : Str) :
    parseValue (Nat.succ fuel) ('[' :: x) =
      (match skipWs x with
       | ']' :: r2 => some (Json.arr [], r2)
       | _ =>
         match parseValue fuel x with
         | none => none
         | some (w, r1) => (parseElems fuel r1).map (fun p => (Json.arr (w :: p.1), p.2))) := rfl

theorem parseValue_lbrace (fuel : Nat) (x : Str) :
    parseValue (Nat.succ fuel) ('\x7b' :: x) =
      (match skipWs x with
       | '\x7d' :: r2 => some (Json.obj [], r2)
       | _ =>
         match parseMember fuel x with
         | none => none
         | some (m, r1) => (parseMembers fuel r1).map (fun p => (Json.obj (m :: p.1), p.2))) := rfl

theorem parseElems_comma (fuel : Nat) (y : Str) :
    parseElems (Nat.succ fuel) (',' :: ' ' :: y) =
      (match parseValue fuel (' ' :: y) with
       | none => none
       | some (w, r1) => (parseElems fuel r1).map (fun p => (w :: p.1, p.2))) := rfl

theorem parseElems_close (fuel : Nat) (rest : Str) :
    parseElems (Nat.succ fuel) (']' :: rest) = some ([], rest) := rfl

theorem parseMember_quote (fuel : Nat) (x : Str) :
    parseMember (Nat.succ fuel) ('"' :: x) =
      (match parseStringBody x with
       | none => none
       | some (kk, r1) =>
         match skipWs r1 with
         | ':' :: r2 => (parseValue fuel r2).map (fun p => ((kk, p.1), p.2))
         | _ => none) := rfl

theorem parseMembers_comma (fuel : Nat) (y : Str) :
    parseMembers (Nat.succ fuel) (',' :: ' ' :: y) =
      (match parseMember fuel (' ' :: y) with
       | none => none
       | some (m, r1) => (parseMembers fuel r1).map (fun p => (m :: p.1, p.2))) := rfl

theorem parseMembers_close (fuel : Nat) (rest : Str) :
    parseMembers (Nat.succ fuel) ('\x7d' :: rest) = some ([], rest) := rfl

/-- The central round-trip induction: parsing the serialized form of any
value (and of element tails, members, and member tails) succeeds and
consumes exactly the serialized text, given enough fuel. -/
theorem parse_dumps (fuel : Nat) :
    (∀ v rest, (dumpsVal v).length < fuel → noDigitHead rest = true →
      parseValue fuel (dumpsVal v ++ rest) = some (v, rest))
    ∧ (∀ vs rest, (dumpsTail vs).length + 1 < fuel →
      parseElems fuel (dumpsTail vs ++ (']' :: rest)) = some (vs, rest))
    ∧ (∀ k v rest, (dumpsMember (k, v)).length < fuel → noDigitHead rest = true →
      parseMember fuel (dumpsMember (k, v) ++ rest) = some ((k, v), rest))
    ∧ (∀ ms rest, (dumpsMTail ms).length + 1 < fuel →
      parseMembers fuel (dumpsMTail ms ++ ('\x7d' :: rest)) = some (ms, rest)) := by
  induction fuel with
  | zero =>
    exact ⟨fun v rest h => absurd h (by omega), fun vs rest h => absurd h (by omega),
      fun k v rest h => absurd h (by omega), fun ms rest h => absurd h (by omega)⟩
  | succ fuel ih =>
    obtain ⟨ihV, ihE, ihM, ihMs⟩ := ih
    refine ⟨?_, ?_, ?_, ?_⟩
    · intro v rest hlen hnd
      cases v with
      | null =>
        rw [show dumpsVal .null = ['n', 'u', 'l', 'l'] by simp [dumpsVal]]
        exact parseValue_null fuel rest
      | bool b =>
        cases b with
        | true =>
          rw [show dumpsVal (.bool true) = ['t', 'r', 'u', 'e'] by simp [dumpsVal]]
          exact parseValue_true fuel rest
        | false =>
          rw [show dumpsVal (.bool false) = ['f', 'a', 'l', 's', 'e'] by simp [dumpsVal]]
          exact parseValue_false fuel rest
      | num n =>
        by_cases hn : n < 0
        · rw [show dumpsVal (.num n) = '-' :: natToStr n.natAbs by
            simp [dumpsVal, intToStr, hn]]
          obtain ⟨d, ds, he, hd, hp⟩ := parseNum_natToStr n.natAbs rest hnd
          rw [he, List.cons_append, List.cons_append, parseValue_minus, if_pos hd, hp]
          have hofs : -(Int.ofNat n.natAbs) = n := by
            rw [show Int.ofNat n.natAbs = ((n.natAbs : Int)) from rfl]
            omega
          show some (Json.num (-(Int.ofNat n.natAbs)), rest) = some (Json.num n, rest)
          rw [hofs]
        · rw [show dumpsVal (.num n) = natToStr n.natAbs by simp [dumpsVal, intToStr, hn]]
          obtain ⟨d, ds, he, hd, hp⟩ := parseNum_natToStr n.natAbs rest hnd
          rw [he, List.cons_append, parseValue.eq_2, skipWs_not_ws (isDigit10_not_ws hd)]
          simp only [hd, if_true, hp]
          have hofs : Int.ofNat n.natAbs = n := by
            rw [show Int.ofNat n.natAbs = ((n.natAbs : Int)) from rfl]
            omega
          show some (Json.num (Int.ofNat n.natAbs), rest) = some (Json.num n, rest)
          rw [hofs]
      | str s =>
        rw [show dumpsVal (.str s) = '"' :: (escapeStr s ++ ['"']) by simp [dumpsVal],
          List.cons_append, List.append_assoc, List.singleton_append, parseValue_quote,
          parseStringBody_escape]
        rfl
      | arr es =>
        cases es with
        | nil =>
          rw [show dumpsVal (.arr []) = ['[', ']'] by simp [dumpsVal]]
          exact parseValue_arr_nil fuel rest
        | cons v vs =>
          rw [show dumpsVal (.arr (v :: vs)) = '[' :: (dumpsVal v ++ (dumpsTail vs ++ [']']))
              by simp [dumpsVal]] at hlen ⊢
          simp only [List.length_cons, List.length_append, List.length_singleton] at hlen
          rw [List.cons_append, List.append_assoc, List.append_assoc, List.singleton_append,
            parseValue_lbracket]
          have h1 : parseValue fuel (dumpsVal v ++ (dumpsTail vs ++ (']' :: rest))) =
              some (v, dumpsTail vs ++ (']' :: rest)) :=
            ihV v _ (by omega) (noDigitHead_dumpsTail vs rest)
          have h2 : parseElems fuel (dumpsTail vs ++ (']' :: rest)) = some (vs, rest) :=
            ihE vs rest (by omega)
          obtain ⟨c, cs, hc, hcws, hcne, -⟩ := dumpsVal_head v
          rw [hc] at h1 ⊢
          rw [List.cons_append] at h1 ⊢
          rw [skipWs_not_ws hcws]
          split
          · next r2 heq =>
            simp only [List.cons.injEq] at heq
            exact absurd heq.1 hcne
          · rw [h1]
            show (parseElems fuel (dumpsTail vs ++ (']' :: rest))).map
                (fun p => (Json.arr (v :: p.1), p.2)) = some (Json.arr (v :: vs), rest)
            rw [h2]
            rfl
      | obj ms =>
        cases ms with
        | nil =>
          rw [show dumpsVal (.obj []) = ['\x7b', '\x7d'] by simp [dumpsVal]]
          exact parseValue_obj_nil fuel rest
        | cons m ms =>
          obtain ⟨k, v⟩ := m
          rw [show dumpsVal (.obj ((k, v) :: ms)) =
              '\x7b' :: (dumpsMember (k, v) ++ (dumpsMTail ms ++ ['\x7d'])) by simp [dumpsVal]]
            at hlen ⊢
          simp only [List.length_cons, List.length_append, List.length_singleton] at hlen
          rw [List.cons_append, List.append_assoc, List.append_assoc, List.singleton_append,
            parseValue_lbrace]
          have h1 : parseMember fuel (dumpsMember (k, v) ++ (dumpsMTail ms ++ ('\x7d' :: rest))) =
              some ((k, v), dumpsMTail ms ++ ('\x7d' :: rest)) :=
            ihM k v _ (by omega) (noDigitHead_dumpsMTail ms rest)
          have h2 : parseMembers fuel (dumpsMTail ms ++ ('\x7d' :: rest)) = some (ms, rest) :=
            ihMs ms rest (by omega)
          have hmh : dumpsMember (k, v) = '"' :: (escapeStr k ++ ('"' :: ':' :: ' ' :: dumpsVal v)) := by
            simp [dumpsMember]
          rw [hmh] at h1 ⊢
          rw [List.cons_append] at h1 ⊢
          rw [skipWs_not_ws (by decide)]
          split
          · next r2 heq =>
            simp only [List.cons.injEq] at heq
            exact absurd heq.1 (by decide)
          · rw [h1]
            show (parseMembers fuel (dumpsMTail ms ++ ('\x7d' :: rest))).map
                (fun p => (Json.obj ((k, v) :: p.1), p.2)) = some (Json.obj ((k, v) :: ms), rest)
            rw [h2]
            rfl
    · intro vs rest hlen
      cases vs with
      | nil =>
        rw [show dumpsTail [] = [] by simp [dumpsTail], List.nil_append]
        exact parseElems_close fuel rest
      | cons v vs =>
        rw [show dumpsTail (v :: vs) = ',' :: ' ' :: (dumpsVal v ++ dumpsTail vs) by
          simp [dumpsTail]] at hlen ⊢
        simp only [List.length_cons, List.length_append] at hlen
        rw [List.cons_append, List.cons_append, List.append_assoc, parseElems_comma,
          parseValue_ws, ihV v _ (by omega) (noDigitHead_dumpsTail vs rest)]
        show (parseElems fuel (dumpsTail vs ++ (']' :: rest))).map
            (fun p => (v :: p.1, p.2)) = some (v :: vs, rest)
        rw [ihE vs rest (by omega)]
        rfl
    · intro k v rest hlen hnd
      rw [show dumpsMember (k, v) = '"' :: (escapeStr k ++ ('"' :: ':' :: ' ' :: dumpsVal v)) by
        simp [dumpsMember]] at hlen ⊢
      simp only [List.length_cons, List.length_append] at hlen
      rw [List.cons_append, List.append_assoc, parseMember_quote]
      rw [show (('"' :: ':' :: ' ' :: dumpsVal v) ++ rest) =
        ('"' :: (':' :: ' ' :: (dumpsVal v ++ rest))) by simp]
      rw [parseStringBody_escape]
      show (parseValue fuel (' ' :: (dumpsVal v ++ rest))).map
          (fun p => ((k, p.1), p.2)) = some ((k, v), rest)
      rw [parseValue_ws, ihV v rest (by omega) hnd]
      rfl
    · intro ms rest hlen
      cases ms with
      | nil =>
        rw [show dumpsMTail [] = [] by simp [dumpsMTail], List.nil_append]
        exact parseMembers_close fuel rest
      | cons m ms =>
        obtain ⟨k, v⟩ := m
        rw [show dumpsMTail ((k, v) :: ms) = ',' :: ' ' :: (dumpsMember (k, v) ++ dumpsMTail ms) by
          simp [dumpsMTail]] at hlen ⊢
        simp only [List.length_cons, List.length_append] at hlen
        rw [List.cons_append, List.cons_append, List.append_assoc, parseMembers_comma,
          parseMember_ws, ihM k v _ (by omega) (noDigitHead_dumpsMTail ms rest)]
        show (parseMembers fuel (dumpsMTail ms ++ ('\x7d' :: rest))).map
            (fun p => ((k, v) :: p.1, p.2)) = some ((k, v) :: ms, rest)
        rw [ihMs ms rest (by omega)]
        rfl

/-- `json.loads (json.dumps v)` recovers `v`. -/
theorem jsonLoads_dumpsVal (v : Json) : jsonLoads (dumpsVal v) = some v := by
  have h := (parse_dumps ((dumpsVal v).length + 1)).1 v [] (by omega) rfl
  rw [List.append_nil] at h
  simp [jsonLoads, h, skipWs]


/-! ## Model of `str.strip` and the extractor (`validator.py`) -/

/-- ASCII whitespace stripped by Python `str.strip()` and matched by the
regex class `\s`. -/
def isPyWs (c : Char) : Bool :=
  c = ' ' || c = '\t' || c = '\n' || c = '\r' || c = '\x0b' || c = '\x0c'

/-- Model of Python `str.strip()`. -/
def pyStrip (s : Str) : Str :=
  ((s.dropWhile isPyWs).reverse.dropWhile isPyWs).reverse

/-- The three-backtick fence delimiter of a markdown code block. -/
def fence : Str := ['\x60', '\x60', '\x60']

/-- Lazy scan for the closing fence of the capture `([\s\S]*?)\n?\x60\x60\x60`:
the content runs to the first position where an optional newline followed by
a fence matches; returns the content and the text after the closing fence. -/
def fenceClose : Str → Option (Str × Str)
  | [] => none
  | c :: rest =>
    if c = '\n' && fence.isPrefixOf rest then some ([], rest.drop 3)
    else if fence.isPrefixOf (c :: rest) then some ([], rest.drop 2)
    else (fenceClose rest).map (fun p => (c :: p.1, p.2))

/-- One position of the `re.findall` scan for the code-block pattern
(open fence, optional `json` tag, greedy whitespace, lazy content, closing
fence); fuelled — each step consumes at least one character and
`findBlocks` supplies `length + 1`. -/
def findBlocksF : Nat → Str → List Str
  | 0, _ => []
  | Nat.succ fuel, s =>
    match s with
    | [] => []
    | c :: rest =>
      if fence.isPrefixOf (c :: rest) then
        let afterOpen := rest.drop 2
        let afterTag :=
          if ['j', 's', 'o', 'n'].isPrefixOf afterOpen then afterOpen.drop 4 else afterOpen
        let afterWs := afterTag.dropWhile isPyWs
        match fenceClose afterWs with
        | some (content, remaining) => content :: findBlocksF fuel remaining
        | none => findBlocksF fuel rest
      else findBlocksF fuel rest

/-- All fenced-code-block captures, in order of appearance (model of
`re.findall(code_block_pattern, text)`). -/
def findBlocks (s : Str) : List Str := findBlocksF (s.length + 1) s

/-- Strategy 2 of `extract_json`: try each fenced block in order, first
parse success wins. -/
def firstBlock : List Str → Option Json
  | [] => none
  | b :: bs =>
    match jsonLoads (pyStrip b) with
    | some v => some v
    | none => firstBlock bs

/-- The balanced-brace scan of `_find_json_object`: `depth` is the Python
`depth` counter (an unbounded integer), the buffer is the candidate started
at the last depth-zero opening brace (`json_start`). -/
def braceScan : Str → Int → Option Str → Option Json
  | [], _, _ => none
  | c :: rest, depth, buf =>
    if c = '\x7b' then
      braceScan rest (depth + 1)
        (if depth = 0 then some ['\x7b'] else buf.map (fun b => b ++ [c]))
    else if c = '\x7d' then
      let buf2 := buf.map (fun b => b ++ [c])
      if depth - 1 = 0 then
        match buf2 with
        | some cand =>
          match jsonLoads cand with
          | some v => some v
          | none => braceScan rest (depth - 1) none
        | none => braceScan rest (depth - 1) none
      else braceScan rest (depth - 1) buf2
    else braceScan rest depth (buf.map (fun b => b ++ [c]))

/-- Model of `_find_json_object` (validator.py). -/
def find_json_object (text : Str) : Option Json :=
  if text.contains '\x7b' = false then none
  else braceScan text 0 none

/-- Model of `extract_json` (validator.py): empty-string guard, strip, then
the three strategies in order — direct parse, fenced blocks, brace scan. -/
def extract_json (text : Str) : Option Json :=
  if text = [] then none
  else
    let t := pyStrip text
    match jsonLoads t with
    | some v => some v
    | none =>
      match firstBlock (findBlocks t) with
      | some v => some v
      | none =>
        match find_json_object t with
        | some result => some result
        | none => none

/-- A Python argument that may fail the `isinstance(text, str)` check. -/
inductive PyText where
  | str (s : Str) : PyText
  | notStr : PyText

/-- The argument guard of `extract_json`: a non-string argument is answered
with `None` (`if not text or not isinstance(text, str)`). -/
def extract_json_arg : PyText → Option Json
  | .str s => extract_json s
  | .notStr => none

/-! ## Stripping a serialized value is the identity -/

theorem dropWhile_of_head_neg {p : Char → Bool} {l : Str}
    (h : ∀ c, l.head? = some c → p c = false) : l.dropWhile p = l := by
  cases l with
  | nil => rfl
  | cons a t => simp [List.dropWhile_cons, h a rfl]

theorem pyStrip_eq_self {s : Str} (h1 : ∀ c, s.head? = some c → isPyWs c = false)
    (h2 : ∀ c, s.getLast? = some c → isPyWs c = false) : pyStrip s = s := by
  unfold pyStrip
  rw [dropWhile_of_head_neg h1, dropWhile_of_head_neg (fun c hc => h2 c ?_),
    List.reverse_reverse]
  rwa [← List.head?_reverse]

theorem isDigit10_not_pyws {c : Char} (h : isDigit10 c = true) : isPyWs c = false := by
  simp only [isDigit10, Bool.and_eq_true, decide_eq_true_eq] at h
  have h1 : c ≠ ' ' := by rintro rfl; exact absurd h (by decide)
  have h2 : c ≠ '\t' := by rintro rfl; exact absurd h (by decide)
  have h3 : c ≠ '\n' := by rintro rfl; exact absurd h (by decide)
  have h4 : c ≠ '\r' := by rintro rfl; exact absurd h (by decide)
  have h5 : c ≠ '\x0b' := by rintro rfl; exact absurd h (by decide)
  have h6 : c ≠ '\x0c' := by rintro rfl; exact absurd h (by decide)
  simp [isPyWs, h1, h2, h3, h4, h5, h6]

theorem dumpsVal_head_not_pyws (v : Json) :
    ∀ c, (dumpsVal v).head? = some c → isPyWs c = false := by
  obtain ⟨c, cs, hc, -, -, -⟩ := dumpsVal_head v
  intro d hd
  rw [hc] at hd
  simp only [List.head?_cons, Option.some.injEq] at hd
  subst hd
  rcases hv : v with _ | b | n | s | es | ms <;> rw [hv] at hc
  · rw [show dumpsVal .null = ['n', 'u', 'l', 'l'] by simp [dumpsVal]] at hc
    simp only [List.cons.injEq] at hc
    rw [← hc.1]; decide
  · cases b with
    | true =>
      rw [show dumpsVal (.bool true) = ['t', 'r', 'u', 'e'] by simp [dumpsVal]] at hc
      simp only [List.cons.injEq] at hc
      rw [← hc.1]; decide
    | false =>
      rw [show dumpsVal (.bool false) = ['f', 'a', 'l', 's', 'e'] by simp [dumpsVal]] at hc
      simp only [List.cons.injEq] at hc
      rw [← hc.1]; decide
  · rw [show dumpsVal (.num n) = intToStr n by simp [dumpsVal]] at hc
    unfold intToStr at hc
    split at hc
    · simp only [List.cons.injEq] at hc
      rw [← hc.1]; decide
    · have hd : isDigit10 c = true :=
        natToStr_all_digits n.natAbs c (hc ▸ List.mem_cons_self c cs)
      exact isDigit10_not_pyws hd
  · rw [show dumpsVal (.str s) = '"' :: (escapeStr s ++ ['"']) by simp [dumpsVal]] at hc
    simp only [List.cons.injEq] at hc
    rw [← hc.1]; decide
  · cases es with
    | nil =>
      rw [show dumpsVal (.arr []) = ['[', ']'] by simp [dumpsVal]] at hc
      simp only [List.cons.injEq] at hc
      rw [← hc.1]; decide
    | cons v1 vs =>
      rw [show dumpsVal (.arr (v1 :: vs)) = '[' :: (dumpsVal v1 ++ (dumpsTail vs ++ [']'])) by
        simp [dumpsVal]] at hc
      simp only [List.cons.injEq] at hc
      rw [← hc.1]; decide
  · cases ms with
    | nil =>
      rw [show dumpsVal (.obj []) = ['\x7b', '\x7d'] by simp [dumpsVal]] at hc
      simp only [List.cons.injEq] at hc
      rw [← hc.1]; decide
    | cons m ms2 =>
      rw [show dumpsVal (.obj (m :: ms2)) =
        '\x7b' :: (dumpsMember m ++ (dumpsMTail ms2 ++ ['\x7d'])) by simp [dumpsVal]] at hc
      simp only [List.cons.injEq] at hc
      rw [← hc.1]; decide

theorem natToStr_last (n : Nat) :
    ∃ d, (natToStr n).getLast? = some d ∧ isDigit10 d = true := by
  rw [natToStr]
  split
  · next h => exact ⟨digitChar10 n, rfl, isDigit10_digitChar10 (by omega)⟩
  · exact ⟨digitChar10 (n % 10), List.getLast?_concat _,
      isDigit10_digitChar10 (Nat.mod_lt _ (by omega))⟩

theorem dumpsVal_last_not_pyws (v : Json) :
    ∀ c, (dumpsVal v).getLast? = some c → isPyWs c = false := by
  intro c hc
  rcases hv : v with _ | b | n | s | es | ms <;> rw [hv] at hc
  · rw [show dumpsVal .null = ['n', 'u', 'l', 'l'] by simp [dumpsVal]] at hc
    simp only [show (['n', 'u', 'l', 'l'] : Str).getLast? = some 'l' from rfl,
      Option.some.injEq] at hc
    rw [← hc]; decide
  · cases b with
    | true =>
      rw [show dumpsVal (.bool true) = ['t', 'r', 'u', 'e'] by simp [dumpsVal]] at hc
      simp only [show (['t', 'r', 'u', 'e'] : Str).getLast? = some 'e' from rfl,
        Option.some.injEq] at hc
      rw [← hc]; decide
    | false =>
      rw [show dumpsVal (.bool false) = ['f', 'a', 'l', 's', 'e'] by simp [dumpsVal]] at hc
      simp only [show (['f', 'a', 'l', 's', 'e'] : Str).getLast? = some 'e' from rfl,
        Option.some.injEq] at hc
      rw [← hc]; decide
  · rw [show dumpsVal (.num n) = intToStr n by simp [dumpsVal]] at hc
    unfold intToStr at hc
    obtain ⟨d, hd, hdig⟩ := natToStr_last n.natAbs
    split at hc
    · rcases he : natToStr n.natAbs with _ | ⟨d1, ds⟩
      · exact absurd he (natToStr_ne_nil _)
      · rw [he, List.getLast?_cons_cons] at hc
        rw [he] at hd
        rw [hd] at hc
        simp only [Option.some.injEq] at hc
        exact hc ▸ isDigit10_not_pyws hdig
    · rw [hd] at hc
      simp only [Option.some.injEq] at hc
      exact hc ▸ isDigit10_not_pyws hdig
  · rw [show dumpsVal (.str s) = '"' :: (escapeStr s ++ ['"']) by simp [dumpsVal],
      ← List.cons_append, List.getLast?_concat] at hc
    simp only [Option.some.injEq] at hc
    rw [← hc]; decide
  · cases es with
    | nil =>
      rw [show dumpsVal (.arr []) = ['[', ']'] by simp [dumpsVal]] at hc
      simp only [show (['[', ']'] : Str).getLast? = some ']' from rfl,
        Option.some.injEq] at hc
      rw [← hc]; decide
    | cons v1 vs =>
      rw [show dumpsVal (.arr (v1 :: vs)) =
        ('[' :: (dumpsVal v1 ++ dumpsTail vs)) ++ [']'] by simp [dumpsVal],
        List.getLast?_concat] at hc
      simp only [Option.some.injEq] at hc
      rw [← hc]; decide
  · cases ms with
    | nil =>
      rw [show dumpsVal (.obj []) = ['\x7b', '\x7d'] by simp [dumpsVal]] at hc
      simp only [show (['\x7b', '\x7d'] : Str).getLast? = some '\x7d' from rfl,
        Option.some.injEq] at hc
      rw [← hc]; decide
    | cons m ms2 =>
      rw [show dumpsVal (.obj (m :: ms2)) =
        ('\x7b' :: (dumpsMember m ++ dumpsMTail ms2)) ++ ['\x7d'] by simp [dumpsVal],
        List.getLast?_concat] at hc
      simp only [Option.some.injEq] at hc
      rw [← hc]; decide

theorem pyStrip_dumpsVal (v : Json) : pyStrip (dumpsVal v) = dumpsVal v :=
  pyStrip_eq_self (dumpsVal_head_not_pyws v) (dumpsVal_last_not_pyws v)

theorem dumpsVal_ne_nil (v : Json) : dumpsVal v ≠ [] := by
  obtain ⟨c, cs, hc, -, -, -⟩ := dumpsVal_head v
  rw [hc]
  simp

/-- Round trip through the extractor: serializing any value and extracting
from the result recovers the value (the direct-parse strategy fires). -/
theorem extract_json_dumpsVal (v : Json) : extract_json (dumpsVal v) = some v := by
  unfold extract_json
  rw [if_neg (dumpsVal_ne_nil v)]
  simp only [pyStrip_dumpsVal, jsonLoads_dumpsVal]

/-! ## Model of the external `jsonschema` library (the exercised fragment) -/

/-- Association lookup in a JSON object's member list (Python dict access;
dictionaries have unique keys, so first match suffices). -/
def lookupMember : List (Str × Json) → Str → Option Json
  | [], _ => none
  | (k, v) :: ms, key => if k = key then some v else lookupMember ms key

/-- Does a JSON value match a Draft 7 primitive type name?  (`integer` and
`number` coincide here because numbers are modelled as integers.) -/
def typeMatches (t : Str) (v : Json) : Bool :=
  if t = "object".toList then (match v with | .obj _ => true | _ => false)
  else if t = "array".toList then (match v with | .arr _ => true | _ => false)
  else if t = "string".toList then (match v with | .str _ => true | _ => false)
  else if t = "integer".toList then (match v with | .num _ => true | _ => false)
  else if t = "number".toList then (match v with | .num _ => true | _ => false)
  else if t = "boolean".toList then (match v with | .bool _ => true | _ => false)
  else if t = "null".toList then (match v with | .null => true | _ => false)
  else false

/-- The Draft 7 primitive type names. -/
def validTypeName (t : Str) : Bool :=
  t = "object".toList || t = "array".toList || t = "string".toList ||
  t = "integer".toList || t = "number".toList || t = "boolean".toList ||
  t = "null".toList

/-- Modelled after `jsonschema.validate`'s meta-check (`check_schema`),
restricted to the fragment in use: the schema must be a JSON object, and a
present `type` keyword must be a known primitive type name.  A defect
raises `SchemaError`, carrying a message. -/
def schemaCheck (schema : Json) : Option Str :=
  match schema with
  | .obj ms =>
    match lookupMember ms ("type".toList) with
    | some (.str t) => if validTypeName t then none else t ++ (" is not valid".toList)
    | some _ => some ("type is not valid".toList)
    | none => none
  | _ => some ("schema is not of type object".toList)

/-- The `required` keyword: one error per missing key, in order (model of
the library's required validator). -/
def requiredErrors (path : List Str) (keys : List Json)
    (dms : List (Str × Json)) : List (List Str × Str) :=
  keys.flatMap (fun kj =>
    match kj with
    | .str k =>
      if (lookupMember dms k).isSome then []
      else [(path, ("'".toList) ++ k ++ ("' is a required property".toList))]
    | _ => [])

mutual

/-- Modelled after `jsonschema.Draft7Validator.iter_errors`, restricted to
the keywords the repository's schemas use (`type`, `required`,
`properties`): all violations are produced in one pass, in schema keyword
order, each carrying its `absolute_path` (instance messages are simplified
— the leading `repr(instance)` is omitted). -/
def iterErrors (path : List Str) (schema data : Json) : List (List Str × Str) :=
  match schema with
  | .obj ms => kwListErrors path ms data
  | _ => []
termination_by sizeOf schema

/-- Errors of the schema's keywords, in member order. -/
def kwListErrors (path : List Str) : List (Str × Json) → Json → List (List Str × Str)
  | [], _ => []
  | (k, v) :: rest, data => kwErrors path k v data ++ kwListErrors path rest data
termination_by ms _ => sizeOf ms

/-- Errors contributed by a single schema keyword. -/
def kwErrors (path : List Str) (k : Str) (v data : Json) : List (List Str × Str) :=
  if k = "type".toList then
    match v with
    | .str t =>
      if typeMatches t data then []
      else [(path, ("is not of type '".toList) ++ t ++ ("'".toList))]
    | _ => []
  else if k = "required".toList then
    match v, data with
    | .arr keys, .obj dms => requiredErrors path keys dms
    | _, _ => []
  else if k = "properties".toList then
    match v, data with
    | .obj props, .obj dms => propsErrors path props dms
    | _, _ => []
  else []
termination_by sizeOf v

/-- Recurse into each declared property present in the data, extending the
path with the property name. -/
def propsErrors (path : List Str) : List (Str × Json) → List (Str × Json) → List (List Str × Str)
  | [], _ => []
  | (k, sub) :: rest, dms =>
    (match lookupMember dms k with
     | some dv => iterErrors (path ++ [k]) sub dv
     | none => []) ++ propsErrors path rest dms
termination_by props _ => sizeOf props

end

/-- Path rendering of `validate_json`:
`" -> ".join(str(p) for p in error.absolute_path) if error.absolute_path else "root"`. -/
def formatPath (path : List Str) : Str :=
  if path = [] then "root".toList else List.intercalate (" -> ".toList) path

/-- One formatted error line: `f"\x7bpath\x7d: \x7berror.message\x7d"`. -/
def formatError (e : List Str × Str) : Str := formatPath e.1 ++ (": ".toList) ++ e.2

/-- Model of `validate_json` (validator.py).  Whether `import jsonschema`
succeeds is the explicit parameter `jsAvail`. -/
def validate_json (jsAvail : Bool) (data schema : Json) : Bool × List Str :=
  if jsAvail = false then
    (true, ["Warning: jsonschema not installed, validation skipped".toList])
  else
    match schemaCheck schema with
    | some msg => (false, [("Invalid schema: ".toList) ++ msg])
    | none =>
      let errs := iterErrors [] schema data
      if errs = [] then (true, [])
      else (false, errs.map formatError)

/-! ## Model of the coercion loop (`api_client.py`) -/

/-- One entry of a backend `articles` list: a single string, or a list of
line strings (both occur; other values pass through `str()` and are out of
scope). -/
inductive Article where
  | text (s : Str) : Article
  | lines (xs : List Str) : Article

/-- The text taken from the first article: the string itself, or
`"\n".join(...)` for the list form. -/
def articleText : Article → Str
  | .text s => s
  | .lines xs => List.intercalate ['\n'] xs

/-- The JSON body of one backend response: `articles` (`[]` when missing,
as `response.get("articles", [])`) and the optional `chat_url` field. -/
structure BackendResponse where
  articles : List Article
  chat_url : Option Str

/-- One POST payload as built by `chat_completions`: the `prompts` field,
and `chat_url` only when a token is held. -/
structure Payload where
  prompts : List Str
  chat_url : Option Str

/-- Per-attempt record (to state the protocol's invariants): the error
feedback handed to the prompt builder, the payload sent, the response
received, and the error set carried out of the attempt. -/
structure AttemptRecord where
  errorsUsed : Option (List Str)
  payload : Payload
  response : BackendResponse
  errorsAfter : List Str

/-- Result of evaluating one backend response inside the loop. -/
inductive AttemptEval where
  | success (v : Json) : AttemptEval
  | failure (errors : List Str) : AttemptEval

/-- The error set of a failed evaluation. -/
def failErrors : AttemptEval → List Str
  | .success _ => []
  | .failure e => e

/-- Extraction and validation of one response (the loop body after the
POST): empty `articles` gives "No response received"; an extraction miss
gives "Could not extract valid JSON from response"; a validation failure
carries the validator's error list; a validation pass succeeds. -/
def evalResponse (jsAvail : Bool) (schema : Json) (resp : BackendResponse) : AttemptEval :=
  match resp.articles with
  | [] => .failure ["No response received".toList]
  | article :: _ =>
    match extract_json (articleText article) with
    | none => .failure ["Could not extract valid JSON from response".toList]
    | some extracted =>
      match validate_json jsAvail extracted schema with
      | (true, _) => .success extracted
      | (false, errors) => .failure errors

/-- Python truthiness of the `errors` argument of `_build_json_prompt`
(`if errors:`). -/
def hasErrors : Option (List Str) → Bool
  | none => false
  | some [] => false
  | some (_ :: _) => true

/-- Spaces of one indentation level. -/
def indentSp (n : Nat) : Str := List.replicate n ' '

mutual

/-- Model of `json.dumps(..., indent=2)` at indentation level `ind` (the
schema rendering used by `_build_json_prompt`). -/
def dumpsInd (ind : Nat) : Json → Str
  | .num n => intToStr n
  | .str s => '"' :: (escapeStr s ++ ['"'])
  | .bool false => ['f', 'a', 'l', 's', 'e']
  | .bool true => ['t', 'r', 'u', 'e']
  | .null => ['n', 'u', 'l', 'l']
  | .arr [] => ['[', ']']
  | .arr (v :: vs) =>
    '[' :: '\n' :: (indentSp (ind + 2) ++ (dumpsInd (ind + 2) v ++ (dumpsIndTail (ind + 2) vs
      ++ ('\n' :: (indentSp ind ++ [']'])))))
  | .obj [] => ['\x7b', '\x7d']
  | .obj (m :: ms) =>
    '\x7b' :: '\n' :: (indentSp (ind + 2) ++ (dumpsIndMember (ind + 2) m
      ++ (dumpsIndMTail (ind + 2) ms ++ ('\n' :: (indentSp ind ++ ['\x7d'])))))

/-- Remaining array elements under `indent=2`. -/
def dumpsIndTail (ind : Nat) : List Json → Str
  | [] => []
  | v :: vs => ',' :: '\n' :: (indentSp ind ++ (dumpsInd ind v ++ dumpsIndTail ind vs))

/-- One object member under `indent=2`. -/
def dumpsIndMember (ind : Nat) : Str × Json → Str
  | (k, v) => '"' :: (escapeStr k ++ ('"' :: ':' :: ' ' :: dumpsInd ind v))

/-- Remaining object members under `indent=2`. -/
def dumpsIndMTail (ind : Nat) : List (Str × Json) → Str
  | [] => []
  | m :: ms => ',' :: '\n' :: (indentSp ind ++ (dumpsIndMember ind m ++ dumpsIndMTail ind ms))

end

/-- Model of `_build_json_prompt` (api_client.py): the `parts` list joined
with newlines. -/
def build_json_prompt (prompt : Str) (schema : Json) (errors : Option (List Str)) : Str :=
  let parts : List Str :=
    (if hasErrors errors then
      ("Your previous response had validation errors:".toList)
        :: ((errors.getD []).map (fun e => ("- ".toList) ++ e)
          ++ [[], "Please fix and respond again.".toList, []])
     else [])
    ++ [prompt, [], "Respond ONLY with valid JSON matching this schema:".toList,
      dumpsInd 0 schema]
  List.intercalate ['\n'] parts

/-- Outcome of `chat_completions`: the standard-mode article list, a
validated value, the non-strict `None` result, or the raised
`JsonValidationError` (message, error list, attempt count).  Wall-clock
durations are not modelled. -/
inductive ChatOutcome where
  | articles (xs : List Article) : ChatOutcome
  | value (v : Json) : ChatOutcome
  | noValue : ChatOutcome
  | raised (message : Str) (errors : List Str) (attempts : Nat) : ChatOutcome

/-- The JSON-mode retry loop of `chat_completions` (`for attempt in
range(max_retries)`), the transport modelled as the sequence of backend
responses by attempt index.  Returns the extracted value (if any), the
final `last_errors`, and the trace of attempts performed. -/
def coerceLoop (jsAvail : Bool) (transport : Nat → BackendResponse) (schema : Json)
    (originalPrompt : Str) :
    Nat → Nat → Option Str → List Str → Option Json × List Str × List AttemptRecord
  | 0, _, _, lastErrors => (none, lastErrors, [])
  | Nat.succ n, attempt, url, lastErrors =>
    let errorsUsed := if attempt > 0 then some lastErrors else none
    let prompt := build_json_prompt originalPrompt schema errorsUsed
    let payload : Payload := ⟨[prompt], url⟩
    let resp := transport attempt
    let url2 := match resp.chat_url with | some u => some u | none => url
    match evalResponse jsAvail schema resp with
    | .success v => (some v, lastErrors, [⟨errorsUsed, payload, resp, lastErrors⟩])
    | .failure errs =>
      let r := coerceLoop jsAvail transport schema originalPrompt n (attempt + 1) url2 errs
      (r.1, r.2.1, ⟨errorsUsed, payload, resp, errs⟩ :: r.2.2)

/-- Model of `GptClient.chat_completions`.  The transport (`_post_json`)
is a parameter giving the response to the k-th POST of this call; the
availability of `jsonschema` is threaded to the validator. -/
def chat_completions (jsAvail : Bool) (transport : Nat → BackendResponse)
    (prompts : List Str) (chat_url : Option Str) (response_schema : Option Json)
    (max_retries : Nat) (strict : Bool) : ChatOutcome × List AttemptRecord :=
  match response_schema with
  | none =>
    let payload : Payload := ⟨prompts, chat_url⟩
    let resp := transport 0
    (.articles resp.articles, [⟨none, payload, resp, []⟩])
  | some schema =>
    let originalPrompt := prompts.headD []
    let r := coerceLoop jsAvail transport schema originalPrompt max_retries 0 chat_url []
    match r.1 with
    | some v => (.value v, r.2.2)
    | none =>
      if strict then
        (.raised (("Failed to get valid JSON response after ".toList)
          ++ natToStr max_retries ++ (" attempts".toList)) r.2.1 max_retries, r.2.2)
      else (.noValue, r.2.2)

/-! ## Structural lemmas about the coercion loop -/

theorem jsonLoads_nil : jsonLoads [] = none := rfl

/-- When every attempt's response evaluates to a failure, the loop returns
`none`, carries exactly the last attempt's error list, and performs exactly
`n` attempts. -/
theorem coerceLoop_all_fail (jsAvail : Bool) (transport : Nat → BackendResponse)
    (schema : Json) (originalPrompt : Str) :
    ∀ (n attempt : Nat) (url : Option Str) (lastErrors : List Str),
      (∀ j, j < n → ∃ e, evalResponse jsAvail schema (transport (attempt + j)) = .failure e) →
      (coerceLoop jsAvail transport schema originalPrompt n attempt url lastErrors).1 = none
      ∧ (coerceLoop jsAvail transport schema originalPrompt n attempt url lastErrors).2.1 =
          (if n = 0 then lastErrors
           else failErrors (evalResponse jsAvail schema (transport (attempt + n - 1))))
      ∧ (coerceLoop jsAvail transport schema originalPrompt n attempt url
          lastErrors).2.2.length = n := by
  intro n
  induction n with
  | zero =>
    intro attempt url lastErrors _
    exact ⟨rfl, by simp [coerceLoop], rfl⟩
  | succ n ih =>
    intro attempt url lastErrors hfail
    obtain ⟨e, he⟩ := hfail 0 (by omega) 
    rw [Nat.add_zero] at he
    have hstep : coerceLoop jsAvail transport schema originalPrompt (Nat.succ n) attempt url
        lastErrors =
        (let r := coerceLoop jsAvail transport schema originalPrompt n (attempt + 1)
          (match (transport attempt).chat_url with | some u => some u | none => url) e
         (r.1, r.2.1,
          (⟨if attempt > 0 then some lastErrors else none,
            ⟨[build_json_prompt originalPrompt schema
              (if attempt > 0 then some lastErrors else none)], url⟩,
            transport attempt, e⟩ : AttemptRecord) :: r.2.2)) := by
      rw [coerceLoop]
      rw [he]
    rw [hstep]
    have ih2 := ih (attempt + 1)
      (match (transport attempt).chat_url with | some u => some u | none => url) e
      (fun j hj => by
        have := hfail (j + 1) (by omega)
        rwa [show attempt + (j + 1) = attempt + 1 + j by omega] at this)
    refine ⟨ih2.1, ?_, by simpa using ih2.2.2⟩
    rcases hn : n with _ | m
    · subst hn
      simp only [ih2.2.1]
      simp only [if_true, if_neg (show ¬(0 + 1 = 0) by omega),
        show attempt + (0 + 1) - 1 = attempt from by omega, he, failErrors]
    · subst hn
      simp only [ih2.2.1]
      rw [if_neg (by omega), if_neg (by omega),
        show attempt + 1 + (m + 1) - 1 = attempt + (m + 1 + 1) - 1 by omega]

/-- Per-trace facts of the loop: at most `n` records; the k-th record holds
the response of the k-th transport call and a single-prompt payload built
from its own error feedback; the first record carries the entry state; for
consecutive records the continuation token and the error feedback are
threaded exactly one step; every non-final record's `errorsAfter` is the
error set its own attempt evaluated to. -/
theorem coerceLoop_trace (jsAvail : Bool) (transport : Nat → BackendResponse)
    (schema : Json) (originalPrompt : Str) :
    ∀ (n attempt : Nat) (url : Option Str) (lastErrors : List Str),
      (coerceLoop jsAvail transport schema originalPrompt n attempt url lastErrors).2.2.length ≤ n
      ∧ (∀ i (hi : i < (coerceLoop jsAvail transport schema originalPrompt n attempt url
            lastErrors).2.2.length),
          (((coerceLoop jsAvail transport schema originalPrompt n attempt url
            lastErrors).2.2).get ⟨i, hi⟩).response = transport (attempt + i)
          ∧ (((coerceLoop jsAvail transport schema originalPrompt n attempt url
            lastErrors).2.2).get ⟨i, hi⟩).payload.prompts =
            [build_json_prompt originalPrompt schema
              ((((coerceLoop jsAvail transport schema originalPrompt n attempt url
                lastErrors).2.2).get ⟨i, hi⟩).errorsUsed)])
      ∧ (∀ rec, ((coerceLoop jsAvail transport schema originalPrompt n attempt url
            lastErrors).2.2).head? = some rec →
          rec.payload.chat_url = url
          ∧ rec.errorsUsed = (if attempt > 0 then some lastErrors else none))
      ∧ List.Chain' (fun a b => b.payload.chat_url =
          (match a.response.chat_url with | some u => some u | none => a.payload.chat_url))
          (coerceLoop jsAvail transport schema originalPrompt n attempt url lastErrors).2.2
      ∧ List.Chain' (fun a b => b.errorsUsed = some a.errorsAfter)
          (coerceLoop jsAvail transport schema originalPrompt n attempt url lastErrors).2.2
      ∧ (∀ i (hi : i < (coerceLoop jsAvail transport schema originalPrompt n attempt url
            lastErrors).2.2.length),
          i + 1 < (coerceLoop jsAvail transport schema originalPrompt n attempt url
            lastErrors).2.2.length →
          evalResponse jsAvail schema (transport (attempt + i)) =
            .failure ((((coerceLoop jsAvail transport schema originalPrompt n attempt url
              lastErrors).2.2).get ⟨i, hi⟩).errorsAfter)) := by
  intro n
  induction n with
  | zero =>
    intro attempt url lastErrors
    refine ⟨by simp [coerceLoop], ?_, ?_, ?_, ?_, ?_⟩ <;>
      simp [coerceLoop]
  | succ n ih =>
    intro attempt url lastErrors
    rcases heval : evalResponse jsAvail schema (transport attempt) with v | errs
    · have hstep : coerceLoop jsAvail transport schema originalPrompt (Nat.succ n) attempt url
          lastErrors =
          (some v, lastErrors,
           [⟨if attempt > 0 then some lastErrors else none,
             ⟨[build_json_prompt originalPrompt schema
               (if attempt > 0 then some lastErrors else none)], url⟩,
             transport attempt, lastErrors⟩]) := by
        rw [coerceLoop, heval]
      rw [hstep]
      refine ⟨by simp, ?_, ?_, ?_, ?_, ?_⟩
      · intro i hi
        simp only [List.length_singleton] at hi
        interval_cases i
        exact ⟨by simp, by simp⟩
      · intro rec hrec
        simp only [List.head?_cons, Option.some.injEq] at hrec
        subst hrec
        exact ⟨rfl, rfl⟩
      · simp
      · simp
      · intro i hi hcontra
        simp only [List.length_singleton] at hi hcontra
        omega
    · have hstep : coerceLoop jsAvail transport schema originalPrompt (Nat.succ n) attempt url
          lastErrors =
          (let r := coerceLoop jsAvail transport schema originalPrompt n (attempt + 1)
            (match (transport attempt).chat_url with | some u => some u | none => url) errs
           (r.1, r.2.1,
            (⟨if attempt > 0 then some lastErrors else none,
              ⟨[build_json_prompt originalPrompt schema
                (if attempt > 0 then some lastErrors else none)], url⟩,
              transport attempt, errs⟩ : AttemptRecord) :: r.2.2)) := by
        rw [coerceLoop, heval]
      rw [hstep]
      have ih2 := ih (attempt + 1)
        (match (transport attempt).chat_url with | some u => some u | none => url) errs
      obtain ⟨ihLen, ihGet, ihHead, ihUrl, ihErr, ihAfter⟩ := ih2
      refine ⟨by simpa using ihLen, ?_, ?_, ?_, ?_, ?_⟩
      · intro i hi
        match i with
        | 0 => exact ⟨by simp, by simp⟩
        | Nat.succ j =>
          simp only [List.length_cons, Nat.succ_lt_succ_iff] at hi
          have := ihGet j hi
          refine ⟨?_, ?_⟩
          · rw [show attempt + (j + 1) = attempt + 1 + j by omega]
            exact this.1
          · exact this.2
      · intro rec hrec
        simp only [List.head?_cons, Option.some.injEq] at hrec
        subst hrec
        exact ⟨rfl, rfl⟩
      · rw [List.chain'_cons']
        refine ⟨?_, ihUrl⟩
        intro b hb
        have := ihHead b hb
        simpa using this.1
      · rw [List.chain'_cons']
        refine ⟨?_, ihErr⟩
        intro b hb
        have := ihHead b hb
        rw [this.2, if_pos (by omega)]
      · intro i hi hnext
        match i with
        | 0 => simpa using heval
        | Nat.succ j =>
          simp only [List.length_cons, Nat.succ_lt_succ_iff] at hi hnext
          have := ihAfter j hi hnext
          rw [show attempt + (j + 1) = attempt + 1 + j by omega]
          exact this

/-- `chat_completions` in JSON mode, written over the loop's result. -/
theorem chat_completions_json_cases (jsAvail : Bool) (transport : Nat → BackendResponse)
    (prompts : List Str) (url : Option Str) (schema : Json) (N : Nat) (strict : Bool) :
    chat_completions jsAvail transport prompts url (some schema) N strict =
      (match (coerceLoop jsAvail transport schema (prompts.headD []) N 0 url []).1 with
       | some v => (ChatOutcome.value v,
           (coerceLoop jsAvail transport schema (prompts.headD []) N 0 url []).2.2)
       | none =>
         if strict = true then
           (ChatOutcome.raised (("Failed to get valid JSON response after ".toList)
             ++ natToStr N ++ (" attempts".toList))
             (coerceLoop jsAvail transport schema (prompts.headD []) N 0 url []).2.1 N,
            (coerceLoop jsAvail transport schema (prompts.headD []) N 0 url []).2.2)
         else (ChatOutcome.noValue,
           (coerceLoop jsAvail transport schema (prompts.headD []) N 0 url []).2.2)) := rfl

/-- JSON-mode trace of `chat_completions` is the loop's trace. -/
theorem chat_completions_json_trace (jsAvail : Bool) (transport : Nat → BackendResponse)
    (prompts : List Str) (url : Option Str) (schema : Json) (N : Nat) (strict : Bool) :
    (chat_completions jsAvail transport prompts url (some schema) N strict).2 =
      (coerceLoop jsAvail transport schema (prompts.headD []) N 0 url []).2.2 := by
  rw [chat_completions_json_cases]
  rcases ho : (coerceLoop jsAvail transport schema (prompts.headD []) N 0 url []).1
    with _ | v
  · rcases strict <;> rfl
  · rfl

/-! ## The claims -/

/-- C1: if all `N ≥ 1` attempts of a JSON-mode call evaluate to failures
(extraction miss, empty response, or validation failure), then in strict
mode the call raises `JsonValidationError` carrying exactly the last
attempt's error list and the attempt count `N`, while in non-strict mode it
returns `None` without raising. -/
theorem claim1_exhaustion_outcomes (jsAvail : Bool) (transport : Nat → BackendResponse)
    (schema : Json) (prompts : List Str) (url : Option Str) (N : Nat) (hN : 1 ≤ N)
    (hfail : ∀ i, i < N → ∃ e, evalResponse jsAvail schema (transport i) = .failure e) :
    (chat_completions jsAvail transport prompts url (some schema) N true).1 =
      .raised (("Failed to get valid JSON response after ".toList) ++ natToStr N
          ++ (" attempts".toList))
        (failErrors (evalResponse jsAvail schema (transport (N - 1)))) N
    ∧ (chat_completions jsAvail transport prompts url (some schema) N false).1 = .noValue := by
  obtain ⟨h1, h2, -⟩ := coerceLoop_all_fail jsAvail transport schema (prompts.headD [])
    N 0 url [] (fun j hj => by simpa using hfail j hj)
  rw [if_neg (by omega : ¬ N = 0), show (0 : Nat) + N - 1 = N - 1 by omega] at h2
  constructor
  · rw [chat_completions_json_cases, h1, h2]
    rfl
  · rw [chat_completions_json_cases, h1]
    rfl

theorem claim1_witness :
    ((chat_completions true (fun _ => ⟨[], none⟩) [] none (some (Json.obj [])) 2 true).1 =
      .raised (("Failed to get valid JSON response after ".toList) ++ natToStr 2
          ++ (" attempts".toList))
        (failErrors (evalResponse true (Json.obj [])
          ((fun _ => (⟨[], none⟩ : BackendResponse)) (2 - 1)))) 2
     ∧ (chat_completions true (fun _ => ⟨[], none⟩) [] none
        (some (Json.obj [])) 2 false).1 = .noValue) :=
  claim1_exhaustion_outcomes true (fun _ => ⟨[], none⟩) (Json.obj []) [] none 2
    (by omega) (fun i _ => ⟨["No response received".toList], rfl⟩)

/-- C2: a JSON-mode call with `max_retries = N` performs at most `N` loop
iterations, and the k-th iteration performs exactly the k-th transport
call (one POST per iteration). -/
theorem claim2_transport_call_bound (jsAvail : Bool) (transport : Nat → BackendResponse)
    (schema : Json) (prompts : List Str) (url : Option Str) (N : Nat) (strict : Bool) :
    (chat_completions jsAvail transport prompts url (some schema) N strict).2.length ≤ N
    ∧ ∀ i (hi : i < (chat_completions jsAvail transport prompts url (some schema) N
        strict).2.length),
        (((chat_completions jsAvail transport prompts url (some schema) N strict).2).get
          ⟨i, hi⟩).response = transport i := by
  have ht := chat_completions_json_trace jsAvail transport prompts url schema N strict
  obtain ⟨hlen, hget, -, -, -, -⟩ :=
    coerceLoop_trace jsAvail transport schema (prompts.headD []) N 0 url []
  constructor
  · rw [ht]
    exact hlen
  · intro i hi
    have h2 := (hget i (by rw [← ht]; exact hi)).1
    rw [Nat.zero_add] at h2
    exact (congrArg AttemptRecord.response (List.get_of_eq ht ⟨i, hi⟩)).trans h2

theorem claim2_witness :
    ((chat_completions true (fun _ => ⟨[], none⟩) [] none (some (Json.obj [])) 1
        true).2.length ≤ 1)
    ∧ (((chat_completions true (fun _ => ⟨[], none⟩) [] none (some (Json.obj [])) 1
        true).2).get ⟨0, by decide⟩).response = (fun _ => (⟨[], none⟩ : BackendResponse)) 0 :=
  ⟨(claim2_transport_call_bound true (fun _ => ⟨[], none⟩) (Json.obj []) [] none 1 true).1,
   (claim2_transport_call_bound true (fun _ => ⟨[], none⟩) (Json.obj []) [] none 1 true).2
     0 (by decide)⟩

/-- C9: extracting from the serialization of any JSON value returns that
value — `extract_json (json.dumps v) = some v` (the direct-parse strategy
fires on the whole serialized text). -/
theorem claim9_extract_serialize_roundtrip (v : Json) :
    extract_json (dumpsVal v) = some v :=
  extract_json_dumpsVal v

/-- C3: `extract_json` tries its three strategies in the fixed order
direct parse, fenced-block scan, balanced-brace scan, returning the first
strategy's value; within the fenced-block strategy the first parsing block
wins; a later strategy is consulted only when every candidate before it
failed. -/
theorem claim3_extract_strategy_order :
    (∀ text v, jsonLoads (pyStrip text) = some v → extract_json text = some v)
    ∧ (∀ text, text ≠ [] → jsonLoads (pyStrip text) = none →
        extract_json text =
          (match firstBlock (findBlocks (pyStrip text)) with
           | some v => some v
           | none => find_json_object (pyStrip text)))
    ∧ (∀ bs i v (hi : i < List.length bs),
        (∀ j (hj : j < List.length bs), j < i → jsonLoads (pyStrip (bs.get ⟨j, hj⟩)) = none) →
        jsonLoads (pyStrip (bs.get ⟨i, hi⟩)) = some v → firstBlock bs = some v) := by
  refine ⟨?_, ?_, ?_⟩
  · intro text v h
    have htne : text ≠ [] := by
      intro he
      rw [he] at h
      rw [show pyStrip [] = [] from rfl, jsonLoads_nil] at h
      exact Option.noConfusion h
    unfold extract_json
    rw [if_neg htne]
    simp only [h]
  · intro text htne h
    unfold extract_json
    rw [if_neg htne]
    simp only [h]
    rcases firstBlock (findBlocks (pyStrip text)) with _ | v
    · rcases find_json_object (pyStrip text) with _ | r <;> rfl
    · rfl
  · intro bs
    induction bs with
    | nil => intro i v hi; simp at hi
    | cons b bs ih =>
      intro i v hi hbefore hparse
      match i with
      | 0 =>
        unfold firstBlock
        rw [show (b :: bs).get ⟨0, hi⟩ = b from rfl] at hparse
        rw [hparse]
      | Nat.succ j =>
        have hb0 : jsonLoads (pyStrip b) = none := by
          have := hbefore 0 (by simp) (by omega)
          rwa [show (b :: bs).get ⟨0, by simp⟩ = b from rfl] at this
        unfold firstBlock
        rw [hb0]
        have hj : j < List.length bs := by
          simp only [List.length_cons, Nat.succ_lt_succ_iff] at hi
          exact hi
        refine ih j v hj ?_ ?_
        · intro k hk hki
          have := hbefore (k + 1) (by simp; omega) (by omega)
          rwa [show (b :: bs).get ⟨k + 1, by simp; omega⟩ = bs.get ⟨k, hk⟩ from rfl] at this
        · rwa [show (b :: bs).get ⟨j + 1, hi⟩ = bs.get ⟨j, hj⟩ from rfl] at hparse

theorem claim3_witness :
    extract_json ("7".toList) = some (Json.num 7) :=
  claim3_extract_strategy_order.1 ("7".toList) (Json.num 7) rfl

/-- C4: `extract_json` never propagates an error: any non-string argument,
the empty string, and text with no parseable JSON (such as
"not json at all") all yield `None`, and whenever all three strategies
fail, the result is `None`. -/
theorem claim4_extract_never_raises :
    extract_json_arg .notStr = none
    ∧ extract_json_arg (.str []) = none
    ∧ extract_json ("not json at all".toList) = none
    ∧ (∀ s, jsonLoads (pyStrip s) = none → firstBlock (findBlocks (pyStrip s)) = none →
        find_json_object (pyStrip s) = none → extract_json s = none) := by
  refine ⟨rfl, rfl, rfl, ?_⟩
  intro s h1 h2 h3
  by_cases hs : s = []
  · rw [hs]
    rfl
  · unfold extract_json
    rw [if_neg hs]
    simp only [h1, h2, h3]

theorem claim4_witness :
    extract_json ("zzz".toList) = none :=
  claim4_extract_never_raises.2.2.2 ("zzz".toList) rfl rfl rfl

/-- C5: on invalid data (well-formed schema, at least one violation)
`validate_json` returns invalid together with one formatted entry per
violation found by the one-pass `iter_errors` — all of them, not only the
first; each entry is qualified by the arrow-joined path or the literal
"root" marker; for a `required`-only schema the number of entries is
exactly the number of missing required keys (two or more when two
independent required rules are violated). -/
theorem claim5_validator_all_violations :
    (∀ data schema, schemaCheck schema = none → iterErrors [] schema data ≠ [] →
      validate_json true data schema = (false, (iterErrors [] schema data).map formatError))
    ∧ (∀ e : List Str × Str, formatError e =
        ((if e.1 = [] then ("root".toList) else List.intercalate (" -> ".toList) e.1)
          ++ ((": ".toList) ++ e.2)))
    ∧ (∀ ks dms, iterErrors [] (.obj [("required".toList, .arr ks)]) (.obj dms) =
        requiredErrors [] ks dms)
    ∧ (∀ path ks dms, (requiredErrors path ks dms).length =
        (ks.filter (fun kj => match kj with
          | .str k => (lookupMember dms k).isNone
          | _ => false)).length) := by
  refine ⟨?_, ?_, ?_, ?_⟩
  · intro data schema hs herrs
    unfold validate_json
    rw [if_neg (by decide : ¬(true = false)), hs]
    simp only [if_neg herrs]
  · intro e
    rcases e with ⟨p, m⟩
    by_cases hp : p = [] <;> simp [formatError, formatPath, hp, List.append_assoc]
  · intro ks dms
    rw [iterErrors]
    rw [kwListErrors, kwErrors]
    rw [if_neg (by decide : ¬("required".toList = "type".toList)),
      if_pos (rfl : "required".toList = "required".toList)]
    rw [kwListErrors]
    simp
  · intro path ks dms
    induction ks with
    | nil => rfl
    | cons kj ks ih =>
      rcases kj with _ | b | n | k | es | ms
      · simp [requiredErrors, List.flatMap_cons, List.filter_cons] at ih ⊢; omega
      · simp [requiredErrors, List.flatMap_cons, List.filter_cons] at ih ⊢; omega
      · simp [requiredErrors, List.flatMap_cons, List.filter_cons] at ih ⊢; omega
      · rcases hk : lookupMember dms k with _ | v <;>
          simp [requiredErrors, List.flatMap_cons, List.filter_cons, hk] at ih ⊢ <;> omega
      · simp [requiredErrors, List.flatMap_cons, List.filter_cons] at ih ⊢; omega
      · simp [requiredErrors, List.flatMap_cons, List.filter_cons] at ih ⊢; omega

theorem claim5_witness :
    validate_json true (Json.obj [])
        (Json.obj [("required".toList, Json.arr [Json.str ("a".toList),
          Json.str ("b".toList)])]) =
      (false, (iterErrors [] (Json.obj [("required".toList, Json.arr [Json.str ("a".toList),
        Json.str ("b".toList)])]) (Json.obj [])).map formatError) :=
  claim5_validator_all_violations.1 (Json.obj [])
    (Json.obj [("required".toList, Json.arr [Json.str ("a".toList), Json.str ("b".toList)])])
    rfl
    (by simp [iterErrors, kwListErrors, kwErrors, requiredErrors, lookupMember])

/-- C6: when the `jsonschema` package cannot be imported, `validate_json`
reports valid together with the single advisory message that validation
was skipped; a genuine pass (package available, data conformant) carries an
empty message list, so callers can tell the two apart. -/
theorem claim6_validator_degrade :
    (∀ data schema, validate_json false data schema =
      (true, ["Warning: jsonschema not installed, validation skipped".toList]))
    ∧ (∀ data schema, (validate_json true data schema).1 = true →
        (validate_json true data schema).2 = []) := by
  constructor
  · intro data schema
    rfl
  · intro data schema
    unfold validate_json
    rw [if_neg (by decide : ¬(true = false))]
    rcases hs : schemaCheck schema with _ | msg
    · by_cases he : iterErrors [] schema data = []
      · intro _
        simp [he]
      · intro h
        simp [he] at h
    · intro h
      simp at h

theorem claim6_witness :
    (validate_json true (Json.obj []) (Json.obj [])).2 = [] :=
  claim6_validator_degrade.2 (Json.obj []) (Json.obj [])
    (by simp [validate_json, schemaCheck, lookupMember, iterErrors, kwListErrors])

/-- C7: with a non-empty prior-error list the augmented prompt is exactly:
one bullet line per prior error under the error header, the fix-and-retry
instruction, the original prompt, then the JSON-only instruction and the
schema rendered with `indent=2`; and across the retry loop the
error feedback of every attempt is precisely the error set computed by the
immediately preceding attempt alone (never an accumulation). -/
theorem claim7_retry_prompt_feedback :
    (∀ prompt schema errs, errs ≠ [] →
      build_json_prompt prompt schema (some errs) =
        List.intercalate ['\n']
          (("Your previous response had validation errors:".toList)
            :: (errs.map (fun e => ("- ".toList) ++ e)
              ++ [[], "Please fix and respond again.".toList, [],
                prompt, [], "Respond ONLY with valid JSON matching this schema:".toList,
                dumpsInd 0 schema])))
    ∧ (∀ (jsAvail : Bool) (transport : Nat → BackendResponse) (schema : Json)
        (prompts : List Str) (url : Option Str) (N : Nat) (strict : Bool),
        List.Chain' (fun a b => b.errorsUsed = some a.errorsAfter)
          (chat_completions jsAvail transport prompts url (some schema) N strict).2
        ∧ (∀ i (hi : i < (chat_completions jsAvail transport prompts url (some schema) N
              strict).2.length),
            i + 1 < (chat_completions jsAvail transport prompts url (some schema) N
              strict).2.length →
            evalResponse jsAvail schema (transport i) =
              .failure ((((chat_completions jsAvail transport prompts url (some schema) N
                strict).2).get ⟨i, hi⟩).errorsAfter))) := by
  constructor
  · intro prompt schema errs h
    rcases errs with _ | ⟨e, es⟩
    · exact absurd rfl h
    · unfold build_json_prompt
      rw [show hasErrors (some (e :: es)) = true from rfl]
      simp [List.cons_append, List.append_assoc]
  · intro jsAvail transport schema prompts url N strict
    have ht := chat_completions_json_trace jsAvail transport prompts url schema N strict
    obtain ⟨-, -, -, -, herr, hafter⟩ :=
      coerceLoop_trace jsAvail transport schema (prompts.headD []) N 0 url []
    constructor
    · rw [ht]
      exact herr
    · intro i hi hnext
      have hi2 : i < (coerceLoop jsAvail transport schema (prompts.headD []) N 0 url
          []).2.2.length := by rw [← ht]; exact hi
      have h2 := hafter i hi2 (by rw [← ht]; exact hnext)
      rw [Nat.zero_add] at h2
      rw [h2]
      congr 2
      exact (List.get_of_eq ht ⟨i, hi⟩).symm

theorem claim7_witness :
    build_json_prompt ("p".toList) (Json.obj []) [("e".toList)] =
      List.intercalate ['\n']
        (("Your previous response had validation errors:".toList)
          :: ([("e".toList)].map (fun e => ("- ".toList) ++ e)
            ++ [[], "Please fix and respond again.".toList, [],
              ("p".toList), [], "Respond ONLY with valid JSON matching this schema:".toList,
              dumpsInd 0 (Json.obj [])])) :=
  claim7_retry_prompt_feedback.1 ("p".toList) (Json.obj []) [("e".toList)] (by decide)

/-- C8: within one JSON-mode call the continuation token of the first
attempt is the caller-supplied one, and each later attempt's token is the
previous attempt's token unless the previous response carried a new token,
which then replaces it. -/
theorem claim8_chat_url_threading (jsAvail : Bool) (transport : Nat → BackendResponse)
    (schema : Json) (prompts : List Str) (url : Option Str) (N : Nat) (strict : Bool) :
    List.Chain' (fun a b => b.payload.chat_url =
        (match a.response.chat_url with | some u => some u | none => a.payload.chat_url))
      (chat_completions jsAvail transport prompts url (some schema) N strict).2
    ∧ (∀ rec, ((chat_completions jsAvail transport prompts url (some schema) N
        strict).2).head? = some rec → rec.payload.chat_url = url) := by
  have ht := chat_completions_json_trace jsAvail transport prompts url schema N strict
  obtain ⟨-, -, hhead, hurl, -, -⟩ :=
    coerceLoop_trace jsAvail transport schema (prompts.headD []) N 0 url []
  constructor
  · rw [ht]
    exact hurl
  · intro rec hrec
    rw [ht] at hrec
    exact (hhead rec hrec).1

theorem claim8_witness :
    (⟨none, ⟨[build_json_prompt [] (Json.obj []) none], some ("u".toList)⟩,
      ⟨[], none⟩, ["No response received".toList]⟩ : AttemptRecord).payload.chat_url =
      some ("u".toList) :=
  (claim8_chat_url_threading true (fun _ => ⟨[], none⟩) (Json.obj []) [] (some ("u".toList))
      1 true).2
    ⟨none, ⟨[build_json_prompt [] (Json.obj []) none], some ("u".toList)⟩, ⟨[], none⟩,
      ["No response received".toList]⟩ rfl

/-- C10: in JSON mode only the first prompt is ever used — the call behaves
identically to one given just the head of the prompt list, an empty prompt
list behaves as the empty-string prompt, and every attempt's payload holds
exactly one prompt, the augmented head prompt. -/
theorem claim10_first_prompt_only :
    (∀ (jsAvail : Bool) (transport : Nat → BackendResponse) (prompts : List Str)
      (url : Option Str) (schema : Json) (N : Nat) (strict : Bool),
      chat_completions jsAvail transport prompts url (some schema) N strict =
        chat_completions jsAvail transport [prompts.headD []] url (some schema) N strict)
    ∧ (∀ (jsAvail : Bool) (transport : Nat → BackendResponse) (url : Option Str)
      (schema : Json) (N : Nat) (strict : Bool),
      chat_completions jsAvail transport [] url (some schema) N strict =
        chat_completions jsAvail transport [[]] url (some schema) N strict)
    ∧ (∀ (jsAvail : Bool) (transport : Nat → BackendResponse) (prompts : List Str)
      (url : Option Str) (schema : Json) (N : Nat) (strict : Bool) i
        (hi : i < (chat_completions jsAvail transport prompts url (some schema) N
          strict).2.length),
        (((chat_completions jsAvail transport prompts url (some schema) N strict).2).get
          ⟨i, hi⟩).payload.prompts =
          [build_json_prompt (prompts.headD []) schema
            ((((chat_completions jsAvail transport prompts url (some schema) N strict).2).get
              ⟨i, hi⟩).errorsUsed)]) := by
  refine ⟨?_, ?_, ?_⟩
  · intro jsAvail transport prompts url schema N strict
    rfl
  · intro jsAvail transport url schema N strict
    rfl
  · intro jsAvail transport prompts url schema N strict i hi
    have ht := chat_completions_json_trace jsAvail transport prompts url schema N strict
    obtain ⟨-, hget, -, -, -, -⟩ :=
      coerceLoop_trace jsAvail transport schema (prompts.headD []) N 0 url []
    have h2 := (hget i (by rw [← ht]; exact hi)).2
    rw [List.get_of_eq ht ⟨i, hi⟩]
    exact h2

theorem claim10_witness :
    (((chat_completions true (fun _ => ⟨[], none⟩) ["p".toList, "q".toList] none
        (some (Json.obj [])) 1 true).2).get ⟨0, by decide⟩).payload.prompts =
      [build_json_prompt (["p".toList, "q".toList].headD []) (Json.obj [])
        ((((chat_completions true (fun _ => ⟨[], none⟩) ["p".toList, "q".toList] none
          (some (Json.obj [])) 1 true).2).get ⟨0, by decide⟩).errorsUsed)] :=
  claim10_first_prompt_only.2.2 true (fun _ => ⟨[], none⟩) ["p".toList, "q".toList] none
    (Json.obj []) 1 true 0 (by decide)

end Gptuapi
